import Mathlib

/-!
Verification development for the session-layer core of the `deep-agents-ui`
repository: the Question Queue (`useQuestions` hook), the Subagent Message
Demultiplexer (`onUpdateEvent` / `onDebugEvent` handlers of `useChat`), the
Session Controller operations of `useChat`, and the ToolCall reconstruction of
`ChatMessage.tsx`.

Modelling conventions (shallow embedding of the TypeScript source):
* JavaScript `Date` values are modelled as `Nat` timestamps; every operation
  that reads the clock takes the current time as an explicit argument.
* `uuidv4()` is modelled as an explicitly supplied fresh-id argument (one id,
  or a `Nat → String` generator indexed by position within a batch).
* JavaScript objects `Record<string, string>` are modelled as association
  lists `List (String × String)` built in the same order as the source's
  `reduce`; `Map` lookups are modelled with last-write-wins semantics.
* JavaScript truthiness of an optional string `s` is modelled as
  `s.getD "" ≠ ""` (both `undefined`/`null` and `""` are falsy).
* React `setQuestions(prev => …)` functional updates are modelled as pure
  state transformers applied in program order; callbacks scheduled with
  `setTimeout(…, 0)` are collected in a list of deferred notifications
  instead of being invoked against the state.
-/

/-! ## Question Queue data model (src/app/types/types.ts) -/

inductive QuestionPriority
  | blocking
  | high
  | medium
  | nice_to_have
deriving DecidableEq, Repr

inductive QuestionStatus
  | pending
  | answered
  | skipped
deriving DecidableEq, Repr

structure QuestionContext where
  file : Option String := none
  lineNumber : Option Nat := none
  branch : Option String := none
  skillLabels : Option (List String) := none
  sessionId : Option String := none
  stepIndex : Option Nat := none
deriving DecidableEq, Repr

structure QuestionOption where
  id : String
  label : String
  description : Option String := none
deriving DecidableEq, Repr

structure Question where
  id : String
  text : String
  priority : QuestionPriority
  confidence : Rat
  status : QuestionStatus
  context : QuestionContext
  options : Option (List QuestionOption) := none
  answer : Option String := none
  answeredAt : Option Nat := none
  createdAt : Nat
  subject : Option String := none
deriving DecidableEq, Repr

/-- Fields of an item of a `QuestionsInterruptData` batch.  The TypeScript
type declares them as a full `Question`, but `addQuestionsFromInterrupt`
treats every field except `text` as optional (`q.id || uuidv4()`,
`q.priority || "medium"`, `q.confidence ?? 0.5`, …), so the embedding makes
them optional. -/
structure IncomingQuestion where
  id : Option String := none
  text : String
  priority : Option QuestionPriority := none
  confidence : Option Rat := none
  context : Option QuestionContext := none
  options : Option (List QuestionOption) := none
  subject : Option String := none
  createdAt : Option Nat := none
deriving DecidableEq, Repr

/-! ## Question Queue operations (useQuestions hook) -/

/-- `addQuestion` of `useQuestions`.  `uuidv4()` is passed in as `freshId`;
the current time as `now`.  Returns the new question list together with the
returned id. -/
def addQuestion (qs : List Question) (freshId : String) (text : String)
    (priority : Option QuestionPriority) (confidence : Option Rat)
    (context : Option QuestionContext) (options : Option (List QuestionOption))
    (subject : Option String) (now : Nat) : List Question × String :=
  let question : Question :=
    { id := freshId
      text := text
      priority := priority.getD .medium
      confidence := confidence.getD (1 / 2)
      status := .pending
      context := context.getD {}
      options := options
      subject := subject
      createdAt := now }
  (qs ++ [question], freshId)

/-- The `newQuestions` construction inside `addQuestionsFromInterrupt`:
`data.questions.map(q => ({ id: q.id || uuidv4(), … }))`.  `freshId i` stands
for the `uuidv4()` call made for the batch item at index `i`. -/
def resolveIncoming (items : List IncomingQuestion) (freshId : Nat → String)
    (now : Nat) : List Question :=
  items.enum.map fun p =>
    let q := p.2
    { id := if q.id.getD "" = "" then freshId p.1 else q.id.getD ""
      text := q.text
      priority := q.priority.getD .medium
      confidence := q.confidence.getD (1 / 2)
      status := .pending
      context := q.context.getD {}
      options := q.options
      subject := q.subject
      createdAt := q.createdAt.getD now }

/-- `addQuestionsFromInterrupt` of `useQuestions`.  `data = none` models a
payload whose `questions` field is missing or not an array (the early
return). Duplicates are filtered against the ids of the *previous* state
only. -/
def addQuestionsFromInterrupt (qs : List Question)
    (data : Option (List IncomingQuestion)) (freshId : Nat → String)
    (now : Nat) : List Question :=
  match data with
  | none => qs
  | some items =>
    let newQuestions := resolveIncoming items freshId now
    let existingIds := qs.map Question.id
    let unique := newQuestions.filter fun q => !(existingIds.contains q.id)
    qs ++ unique

/-- `getAllAnswers` of `useQuestions`: the `filter(status === "answered" &&
q.answer).reduce(…)` mapping, as an association list in reduce order.  The
same expression is inlined in `answerQuestion` to build the resume mapping. -/
def getAllAnswers (qs : List Question) : List (String × String) :=
  (qs.filter fun q =>
      q.status == QuestionStatus.answered && q.answer.getD "" != "").map
    fun q => (q.id, q.answer.getD "")

/-- Observable outcome of one `answerQuestion` call: the updated question
list, the argument of the unconditional `onAnswer?.(questionId, answer)`
call, and the list of resume notifications deferred with `setTimeout(…, 0)`
(each carrying its answers mapping). -/
structure AnswerEffects where
  questions : List Question
  onAnswerCall : String × String
  resumeCalls : List (List (String × String))
deriving DecidableEq, Repr

/-- `answerQuestion` of `useQuestions`.  `hasResumeWithAnswers` models
whether the `onResumeWithAnswers` callback option was provided. -/
def answerQuestion (qs : List Question) (questionId answer : String)
    (now : Nat) (hasResumeWithAnswers : Bool) : AnswerEffects :=
  let qs1 := qs.map fun q =>
    if q.id = questionId then
      { q with status := .answered, answer := some answer, answeredAt := some now }
    else q
  let stillBlocking := qs1.filter fun q =>
    q.priority == QuestionPriority.blocking && q.status == QuestionStatus.pending
  let resumeCalls :=
    if stillBlocking.length == 0 && hasResumeWithAnswers then [getAllAnswers qs1]
    else []
  { questions := qs1, onAnswerCall := (questionId, answer), resumeCalls := resumeCalls }

/-- `skipQuestion` of `useQuestions`. -/
def skipQuestion (qs : List Question) (questionId : String) (now : Nat) :
    List Question :=
  qs.map fun q =>
    if q.id = questionId then
      { q with status := .skipped, answeredAt := some now }
    else q

/-- `canProceed` of `useQuestions`. -/
def canProceed (qs : List Question) : Bool :=
  !(qs.any fun q =>
    q.priority == QuestionPriority.blocking && q.status == QuestionStatus.pending)

/-! ## Concrete questions used by counterexamples and witnesses -/

def exSkipped : Question :=
  { id := "q1", text := "t", priority := .blocking, confidence := 1,
    status := .skipped, context := {}, createdAt := 0 }

def exBlocking : Question :=
  { id := "b1", text := "t", priority := .blocking, confidence := 1,
    status := .pending, context := {}, createdAt := 0 }

/-! ## C9: canProceed characterization -/

/-- C9: `canProceed()` returns true iff no question in the set is both
pending and of priority blocking; answered and skipped blocking questions
and pending questions of other priorities are ignored. -/
theorem canProceed_spec (qs : List Question) :
    canProceed qs = true ↔
      ∀ q ∈ qs, ¬(q.status = QuestionStatus.pending ∧
        q.priority = QuestionPriority.blocking) := by
  unfold canProceed
  rw [Bool.not_eq_true', List.any_eq_false]
  constructor
  · intro h q hq hc
    have h2 := h q hq
    simp [hc.1, hc.2] at h2
  · intro h q hq
    by_cases h1 : q.priority = QuestionPriority.blocking
    · by_cases h2 : q.status = QuestionStatus.pending
      · exact absurd ⟨h2, h1⟩ (h q hq)
      · simp [h2]
    · simp [h1]

/-! ## C10: frame property for unmatched ids -/

/-- Updating by id is the identity when no question carries the id. -/
theorem update_by_id_noop (qs : List Question) (qid : String)
    (f : Question → Question) (h : ∀ q ∈ qs, q.id ≠ qid) :
    (qs.map fun q => if q.id = qid then f q else q) = qs := by
  induction qs with
  | nil => rfl
  | cons a l ih =>
    have ha : a.id ≠ qid := h a (List.mem_cons_self a l)
    simp only [List.map_cons, if_neg ha, List.cons.injEq, true_and]
    exact ih fun q hq => h q (List.mem_cons_of_mem a hq)

/-- C10: when no question matches the id, `answerQuestion` and
`skipQuestion` leave the question set unchanged. -/
theorem unmatched_id_frame (qs : List Question) (qid ans : String) (now : Nat)
    (hR : Bool) (h : ∀ q ∈ qs, q.id ≠ qid) :
    (answerQuestion qs qid ans now hR).questions = qs ∧
      skipQuestion qs qid now = qs := by
  constructor
  · show (qs.map fun q => if q.id = qid then _ else q) = qs
    exact update_by_id_noop qs qid _ h
  · exact update_by_id_noop qs qid _ h

theorem unmatched_id_frame_witness :
    (answerQuestion [exBlocking] "zzz" "x" 5 true).questions = [exBlocking] ∧
      skipQuestion [exBlocking] "zzz" 5 = [exBlocking] :=
  unmatched_id_frame [exBlocking] "zzz" "x" 5 true (by decide)


/-! ## Unfolding equations for answerQuestion -/

theorem answerQuestion_questions_eq (qs : List Question) (qid ans : String)
    (now : Nat) (hR : Bool) :
    (answerQuestion qs qid ans now hR).questions =
      qs.map fun q => if q.id = qid then { q with status := QuestionStatus.answered, answer := some ans, answeredAt := some now } else q :=
  rfl

theorem answerQuestion_resumeCalls_eq (qs : List Question) (qid ans : String)
    (now : Nat) (hR : Bool) :
    (answerQuestion qs qid ans now hR).resumeCalls =
      if (((qs.map fun q => if q.id = qid then { q with status := QuestionStatus.answered, answer := some ans, answeredAt := some now } else q).filter fun q => q.priority == QuestionPriority.blocking && q.status == QuestionStatus.pending).length == 0 && hR)
      then [getAllAnswers (qs.map fun q => if q.id = qid then { q with status := QuestionStatus.answered, answer := some ans, answeredAt := some now } else q)]
      else [] :=
  rfl

/-! ## C2: status transitions -/

/-- C2 counterexample: `answerQuestion` on an already-skipped question is not
a no-op — it moves the question to answered (so skipped → answered occurs),
and `skipQuestion` then moves it back to skipped (answered → skipped). -/
theorem answerQuestion_not_noop_on_skipped :
    (answerQuestion [exSkipped] "q1" "yes" 7 false).questions ≠ [exSkipped] ∧
      ((answerQuestion [exSkipped] "q1" "yes" 7 false).questions.map
        Question.status) = [QuestionStatus.answered] ∧
      (skipQuestion (answerQuestion [exSkipped] "q1" "yes" 7 false).questions
        "q1" 9).map Question.status = [QuestionStatus.skipped] := by
  have hst : ((answerQuestion [exSkipped] "q1" "yes" 7 false).questions.map
      Question.status) = [QuestionStatus.answered] := rfl
  refine ⟨?_, hst, rfl⟩
  intro h
  rw [h] at hst
  exact absurd hst (by decide)

/-- C2 amended: `answerQuestion` sets every question matching the id to
answered (stamping answer and answeredAt) regardless of its prior status, and
`skipQuestion` sets every matching question to skipped regardless of prior
status; questions with a different id are left untouched, and neither
operation ever moves a question (back) to pending. -/
theorem status_transitions_spec (qs : List Question) (qid ans : String)
    (now : Nat) (hR : Bool) :
    (∀ q2 ∈ (answerQuestion qs qid ans now hR).questions,
      (q2.id = qid → q2.status = QuestionStatus.answered ∧
        q2.answer = some ans ∧ q2.answeredAt = some now) ∧
      (q2.id ≠ qid → q2 ∈ qs) ∧
      (q2.status = QuestionStatus.pending → q2 ∈ qs)) ∧
    (∀ q2 ∈ skipQuestion qs qid now,
      (q2.id = qid → q2.status = QuestionStatus.skipped ∧
        q2.answeredAt = some now) ∧
      (q2.id ≠ qid → q2 ∈ qs) ∧
      (q2.status = QuestionStatus.pending → q2 ∈ qs)) := by
  constructor
  · intro q2 hq2
    rw [answerQuestion_questions_eq, List.mem_map] at hq2
    obtain ⟨q, hq, heq⟩ := hq2
    by_cases hid : q.id = qid
    · rw [if_pos hid] at heq
      subst heq
      refine ⟨fun _ => ⟨rfl, rfl, rfl⟩, fun hne => absurd hid hne, fun hp => ?_⟩
      simp at hp
    · rw [if_neg hid] at heq
      subst heq
      exact ⟨fun h => absurd h hid, fun _ => hq, fun _ => hq⟩
  · intro q2 hq2
    unfold skipQuestion at hq2
    rw [List.mem_map] at hq2
    obtain ⟨q, hq, heq⟩ := hq2
    by_cases hid : q.id = qid
    · rw [if_pos hid] at heq
      subst heq
      refine ⟨fun _ => ⟨rfl, rfl⟩, fun hne => absurd hid hne, fun hp => ?_⟩
      simp at hp
    · rw [if_neg hid] at heq
      subst heq
      exact ⟨fun h => absurd h hid, fun _ => hq, fun _ => hq⟩

def exSkippedAnswered : Question :=
  { exSkipped with status := .answered, answer := some "yes", answeredAt := some 7 }

theorem status_transitions_spec_witness :
    exSkippedAnswered.status = QuestionStatus.answered ∧
      exSkippedAnswered.answer = some "yes" ∧
      exSkippedAnswered.answeredAt = some 7 :=
  ((status_transitions_spec [exSkipped] "q1" "yes" 7 false).1
    exSkippedAnswered
    (by decide)).1 rfl

/-! ## C1: resume notification on answering the last blocking question -/

/-- Membership in the `getAllAnswers` mapping characterized against the
question set. -/
theorem getAllAnswers_mem (qs : List Question) (i a : String) :
    (i, a) ∈ getAllAnswers qs ↔
      ∃ q ∈ qs, q.id = i ∧ q.status = QuestionStatus.answered ∧
        q.answer = some a ∧ a ≠ "" := by
  unfold getAllAnswers
  rw [List.mem_map]
  constructor
  · rintro ⟨q, hq, heq⟩
    rw [List.mem_filter] at hq
    obtain ⟨hqmem, hpred⟩ := hq
    rw [Bool.and_eq_true, beq_iff_eq] at hpred
    obtain ⟨hstat, hans⟩ := hpred
    have hi : q.id = i := congrArg Prod.fst heq
    have ha : q.answer.getD "" = a := congrArg Prod.snd heq
    have hne : a ≠ "" := by
      intro hae
      rw [hae] at ha
      rw [ha] at hans
      simp at hans
    refine ⟨q, hqmem, hi, hstat, ?_, hne⟩
    cases hoa : q.answer with
    | none =>
      rw [hoa] at ha
      simp only [Option.getD_none] at ha
      exact absurd ha.symm hne
    | some s =>
      rw [hoa] at ha
      simp only [Option.getD_some] at ha
      rw [ha]
  · rintro ⟨q, hqmem, hi, hstat, hans, hne⟩
    refine ⟨q, ?_, ?_⟩
    · rw [List.mem_filter]
      refine ⟨hqmem, ?_⟩
      rw [Bool.and_eq_true, beq_iff_eq]
      refine ⟨hstat, ?_⟩
      rw [hans]
      simpa using hne
    · rw [hi, hans]
      rfl

/-- C1 counterexample: answering the last pending blocking question with the
empty string fires the resume notification with an empty mapping even though
no question has status answered with a non-empty answer — the source checks
only that no pending blocking question remains, not that any non-empty
answer exists. -/
theorem answerQuestion_resume_fires_with_empty_answers :
    (answerQuestion [exBlocking] "b1" "" 1 true).resumeCalls = [[]] ∧
      ((answerQuestion [exBlocking] "b1" "" 1 true).questions.all fun q =>
        !(q.status == QuestionStatus.answered && q.answer.getD "" != "")) =
        true :=
  ⟨by decide, by decide⟩

/-- C1 amended: if every pending blocking question carries the answered id
(in particular when the named question is the last pending blocking one),
`answerQuestion` defers exactly one resume notification when the resume
callback is provided — regardless of whether any non-empty answer exists —
and the notification's mapping contains exactly the id-to-answer pairs of
the questions whose status is answered with a non-empty answer; without the
callback no notification is deferred. -/
theorem answerQuestion_resume_spec (qs : List Question) (qid ans : String)
    (now : Nat) (hR : Bool)
    (hlast : ∀ q ∈ qs, q.priority = QuestionPriority.blocking →
      q.status = QuestionStatus.pending → q.id = qid) :
    (hR = true → ∃ m, (answerQuestion qs qid ans now hR).resumeCalls = [m] ∧
      ∀ i a : String, ((i, a) ∈ m ↔
        ∃ q ∈ (answerQuestion qs qid ans now hR).questions,
          q.id = i ∧ q.status = QuestionStatus.answered ∧
          q.answer = some a ∧ a ≠ "")) ∧
    (hR = false → (answerQuestion qs qid ans now hR).resumeCalls = []) := by
  have hempty : ((qs.map fun q => if q.id = qid then { q with status := QuestionStatus.answered, answer := some ans, answeredAt := some now } else q).filter fun q => q.priority == QuestionPriority.blocking && q.status == QuestionStatus.pending) = [] := by
    rw [List.filter_eq_nil_iff]
    intro q2 hq2
    rw [List.mem_map] at hq2
    obtain ⟨q, hq, heq⟩ := hq2
    by_cases hid : q.id = qid
    · rw [if_pos hid] at heq
      subst heq
      simp
    · rw [if_neg hid] at heq
      subst heq
      intro hpred
      rw [Bool.and_eq_true, beq_iff_eq, beq_iff_eq] at hpred
      exact hid (hlast q hq hpred.1 hpred.2)
  constructor
  · intro hRt
    subst hRt
    refine ⟨getAllAnswers ((answerQuestion qs qid ans now true).questions),
      ?_, fun i a => getAllAnswers_mem _ i a⟩
    rw [answerQuestion_resumeCalls_eq, answerQuestion_questions_eq, hempty]
    rw [if_pos]
    rfl
  · intro hRf
    subst hRf
    rw [answerQuestion_resumeCalls_eq]
    simp

theorem answerQuestion_resume_spec_witness :
    ∃ m, (answerQuestion [exBlocking] "b1" "REST" 3 true).resumeCalls = [m] ∧
      ∀ i a : String, ((i, a) ∈ m ↔
        ∃ q ∈ (answerQuestion [exBlocking] "b1" "REST" 3 true).questions,
          q.id = i ∧ q.status = QuestionStatus.answered ∧
          q.answer = some a ∧ a ≠ "") :=
  (answerQuestion_resume_spec [exBlocking] "b1" "REST" 3 true (by decide)).1 rfl

/-! ## C3: id uniqueness under addQuestion / addQuestionsFromInterrupt -/

def dupIncoming : IncomingQuestion := { id := some "a", text := "t1" }

/-- C3 counterexample: a single interrupt batch containing two items with the
same id "a" produces a question set with the id "a" twice — the source
deduplicates only against the ids present before the call, not within the
batch. -/
theorem interrupt_batch_duplicate_ids_survive :
    ((addQuestionsFromInterrupt []
        (some [dupIncoming, { dupIncoming with text := "t2" }])
        (fun n => "fresh-" ++ toString n) 0).map Question.id) = ["a", "a"] := by
  decide

/-- C3 amended: `addQuestionsFromInterrupt` appends to the unchanged previous
set only items whose id does not already occur in it (duplicates of existing
ids are silently dropped, never merged or overwriting), and the id set stays
duplicate-free provided the batch's resolved ids are themselves distinct;
`addQuestion` appends a single question carrying the generated id, keeping
the id set duplicate-free when the generated id is fresh.  A batch whose
resolved ids repeat internally, however, introduces duplicates. -/
theorem question_ids_unique_spec (qs : List Question)
    (items : List IncomingQuestion) (f : Nat → String) (now : Nat)
    (freshId : String) (text : String) :
    (∃ added, addQuestionsFromInterrupt qs (some items) f now = qs ++ added ∧
      ∀ q ∈ added, q.id ∉ qs.map Question.id) ∧
    ((qs.map Question.id).Nodup →
      ((resolveIncoming items f now).map Question.id).Nodup →
      ((addQuestionsFromInterrupt qs (some items) f now).map
        Question.id).Nodup) ∧
    ((addQuestion qs freshId text none none none none none now).1.map
      Question.id = qs.map Question.id ++ [freshId]) ∧
    ((qs.map Question.id).Nodup → freshId ∉ qs.map Question.id →
      ((addQuestion qs freshId text none none none none none now).1.map
        Question.id).Nodup) := by
  have hadded : ∀ q ∈ (resolveIncoming items f now).filter
      (fun q => !((qs.map Question.id).contains q.id)),
      q.id ∉ qs.map Question.id := by
    intro q hq
    rw [List.mem_filter] at hq
    obtain ⟨-, hpred⟩ := hq
    rw [Bool.not_eq_true'] at hpred
    intro hmem
    have h3 : (qs.map Question.id).contains q.id = true := List.elem_iff.mpr hmem
    rw [hpred] at h3
    cases h3
  have heq : addQuestionsFromInterrupt qs (some items) f now =
      qs ++ (resolveIncoming items f now).filter
        (fun q => !((qs.map Question.id).contains q.id)) := rfl
  have hsplit : (addQuestion qs freshId text none none none none none now).1 =
      qs ++ [{ id := freshId, text := text, priority := .medium, confidence := 1 / 2, status := .pending, context := {}, createdAt := now }] := rfl
  have heq2 : (addQuestion qs freshId text none none none none none now).1.map
      Question.id = qs.map Question.id ++ [freshId] := by
    rw [hsplit, List.map_append]
    rfl
  refine ⟨⟨_, heq, hadded⟩, ?_, heq2, ?_⟩
  · intro h1 h2
    rw [heq, List.map_append]
    refine List.Nodup.append h1 ?_ ?_
    · exact List.Nodup.sublist (List.Sublist.map Question.id
        (List.filter_sublist _)) h2
    · intro a ha hb
      rw [List.mem_map] at hb
      obtain ⟨q, hqmem, hqa⟩ := hb
      exact hadded q hqmem (hqa ▸ ha)
  · intro h1 hfresh
    rw [heq2]
    refine List.Nodup.append h1 (List.nodup_singleton freshId) ?_
    intro a ha hb
    rw [List.mem_singleton] at hb
    exact hfresh (hb ▸ ha)

theorem question_ids_unique_spec_witness :
    ((addQuestionsFromInterrupt [exBlocking] (some [dupIncoming])
        (fun n => "fresh-" ++ toString n) 0).map Question.id).Nodup ∧
      ((addQuestion [exBlocking] "n1" "t" none none none none none 0).1.map
        Question.id).Nodup :=
  ⟨(question_ids_unique_spec [exBlocking] [dupIncoming]
      (fun n => "fresh-" ++ toString n) 0 "n1" "t").2.1 (by decide) (by decide),
   (question_ids_unique_spec [exBlocking] [dupIncoming]
      (fun n => "fresh-" ++ toString n) 0 "n1" "t").2.2.2 (by decide) (by decide)⟩

/-! ## Subagent Message Demultiplexer data model (useChat hook)

Stream messages are modelled with the fields the handlers and the
`ChatMessage` reconstruction read.  `content` models the JavaScript value of
`msg.content` as seen by the reconstruction code: a string, an array of
content blocks, some other truthy structured value (carried together with
the text `JSON.stringify(value, null, 2)` would render), or — via `none` —
`undefined`/`null`/another falsy non-string value. -/

inductive ContentItem
  | str (s : String)
  | obj (text : Option String) (dump : String)
deriving DecidableEq, Repr

inductive MsgContent
  | str (s : String)
  | arr (items : List ContentItem)
  | other (dump : String)
deriving DecidableEq, Repr

structure ToolCallRequest where
  id : String
  name : Option String := none
  args : Option (List (String × String)) := none
deriving DecidableEq, Repr

structure Msg where
  id : Option String := none
  type : Option String := none
  tool_call_id : Option String := none
  content : Option MsgContent := none
  tool_calls : Option (List ToolCallRequest) := none
deriving DecidableEq, Repr

/-- Per-thread demultiplexer state: the `subagentMessageIds` seen-id set
(as an insertion-ordered duplicate-free list) and the
`subagentMessages` store mapping a tool-call id to its message log. -/
structure DemuxState where
  seenIds : List String
  store : String → List Msg

def toolsTag : List Char := ['t', 'o', 'o', 'l', 's', ':']

/-- Characters matched by `.` in a JavaScript regex without the `s` flag
(anything but a line terminator). -/
def isRegexDotChar (c : Char) : Bool :=
  c != '\n' && c != '\r' && c != '\u2028' && c != '\u2029'

/-- The `namespaceStr.match(/^tools:(.+)$/)` key extraction shared by both
handlers: the text captured by `(.+)` when the pattern matches (the capture
must be non-empty and free of line terminators), otherwise the whole
segment verbatim. -/
def extractToolCallId (s : String) : String :=
  let rest := s.data.drop 6
  if s.data.take 6 = toolsTag ∧ rest ≠ [] ∧ rest.all isRegexDotChar then
    String.mk rest
  else s

/-- The template-literal fallback ids: tag is `""` for the update handler
and `"debug-"` for the debug handler's message loops. -/
def fallbackMsgId (tag toolCallId : String) (idx now : Nat) : String :=
  tag ++ toolCallId ++ "-msg-" ++ toString idx ++ "-" ++ toString now

/-- `msg.id || fallback` (JavaScript `||`: both a missing and an empty id
take the fallback). -/
def resolveMsgId (m : Msg) (tag toolCallId : String) (idx now : Nat) : String :=
  if m.id.getD "" = "" then fallbackMsgId tag toolCallId idx now else m.id.getD ""

/-- Recording one message under `toolCallId` with the already-resolved id
`msgId`: add the id to the seen-id set, and append `{ ...msg, id: msgId }`
to the keyed log only if no existing entry of that log carries the id. -/
def trackMsg (st : DemuxState) (toolCallId msgId : String) (m : Msg) :
    DemuxState :=
  { seenIds :=
      if st.seenIds.contains msgId then st.seenIds else st.seenIds ++ [msgId]
    store := fun k =>
      if (st.store toolCallId).any fun m0 => m0.id == some msgId then st.store k
      else if k = toolCallId then
        st.store toolCallId ++ [{ m with id := some msgId }]
      else st.store k }

/-- The `messages.forEach((msg, idx) => …)` loop of both handlers. -/
def trackMsgs (st : DemuxState) (toolCallId tag : String) (idx now : Nat) :
    List Msg → DemuxState
  | [] => st
  | m :: rest =>
    trackMsgs (trackMsg st toolCallId (resolveMsgId m tag toolCallId idx now) m)
      toolCallId tag (idx + 1) now rest

/-- Update-event payload: `data.model?.messages` and `data.messages`
(`some` iff the field holds an array). -/
structure UpdateData where
  modelMessages : Option (List Msg) := none
  messages : Option (List Msg) := none

/-- Debug-event payload: `payload.messages`, `payload.input?.messages`
(each `some` iff the field holds an array) and the payload's own
message-shaped fields for the `payload.type === "tool"` branch. -/
structure DebugPayload where
  messages : Option (List Msg) := none
  inputMessages : Option (List Msg) := none
  selfMsg : Msg := {}

/-- The `if (messages && Array.isArray(messages)) messages.forEach(…)`
guard: a present array is looped over, anything else is skipped. -/
def trackMsgsOpt (st : DemuxState) (toolCallId tag : String) (now : Nat) :
    Option (List Msg) → DemuxState
  | some ms => trackMsgs st toolCallId tag 0 now ms
  | none => st

/-- The debug handler's trailing `payload.type === "tool"` branch: the
payload itself recorded as a single message with the `debug-tool-`
fallback id. -/
def trackSelfTool (st : DemuxState) (toolCallId : String) (now : Nat)
    (m : Msg) : DemuxState :=
  if m.type == some "tool" then
    trackMsg st toolCallId
      (if m.id.getD "" = "" then "debug-tool-" ++ toString now
       else m.id.getD "")
      m
  else st

/-- `onUpdateEvent` of `useChat`.  An empty namespace leaves the state
untouched; `data.model?.messages || data.messages` picks the message
sequence (an empty array is truthy, so a present `model.messages` wins even
when empty). -/
def onUpdateEvent (st : DemuxState) (ns : List String) (d : UpdateData)
    (now : Nat) : DemuxState :=
  match ns with
  | [] => st
  | n0 :: _ =>
    let toolCallId := extractToolCallId n0
    trackMsgsOpt st toolCallId "" now (d.modelMessages <|> d.messages)

/-- `onDebugEvent` of `useChat`: first the `payload.messages` loop, then the
`payload.input?.messages` loop (both with the `debug-` fallback-id template
starting again at index 0), then the `payload.type === "tool"` branch. -/
def onDebugEvent (st : DemuxState) (ns : List String)
    (p : Option DebugPayload) (now : Nat) : DemuxState :=
  match ns with
  | [] => st
  | n0 :: _ =>
    let toolCallId := extractToolCallId n0
    match p with
    | none => st
    | some pl =>
      trackSelfTool
        (trackMsgsOpt
          (trackMsgsOpt st toolCallId "debug-" now pl.messages)
          toolCallId "debug-" now pl.inputMessages)
        toolCallId now pl.selfMsg

/-! ## Demultiplexer step lemmas -/

theorem trackMsg_store_grow (st : DemuxState) (tcid msgId : String) (m : Msg)
    (k : String) :
    ∃ t, (trackMsg st tcid msgId m).store k = st.store k ++ t := by
  by_cases h1 : (st.store tcid).any (fun m0 => m0.id == some msgId) = true
  · exact ⟨[], by simp [trackMsg, h1]⟩
  · by_cases hk : k = tcid
    · subst hk
      exact ⟨[{ m with id := some msgId }], by simp [trackMsg, h1]⟩
    · exact ⟨[], by simp [trackMsg, h1, hk]⟩

theorem trackMsgs_store_grow (ms : List Msg) :
    ∀ (st : DemuxState) (tcid tag : String) (i n : Nat) (key : String),
      ∃ t, (trackMsgs st tcid tag i n ms).store key = st.store key ++ t := by
  induction ms with
  | nil =>
    intro st tcid tag i n key
    exact ⟨[], (List.append_nil _).symm⟩
  | cons m rest ih =>
    intro st tcid tag i n key
    obtain ⟨t1, h1⟩ :=
      trackMsg_store_grow st tcid (resolveMsgId m tag tcid i n) m key
    obtain ⟨t2, h2⟩ :=
      ih (trackMsg st tcid (resolveMsgId m tag tcid i n) m) tcid tag
        (i + 1) n key
    refine ⟨t1 ++ t2, ?_⟩
    simp only [trackMsgs]
    rw [h2, h1, List.append_assoc]

theorem trackMsg_store_other (st : DemuxState) (tcid msgId : String) (m : Msg)
    (k : String) (hk : k ≠ tcid) :
    (trackMsg st tcid msgId m).store k = st.store k := by
  by_cases h1 : (st.store tcid).any (fun m0 => m0.id == some msgId) = true
  · simp [trackMsg, h1]
  · simp [trackMsg, h1, hk]

theorem trackMsgs_store_other (ms : List Msg) :
    ∀ (st : DemuxState) (tcid tag : String) (i n : Nat) (k : String),
      k ≠ tcid → (trackMsgs st tcid tag i n ms).store k = st.store k := by
  induction ms with
  | nil => intro st tcid tag i n k _; rfl
  | cons m rest ih =>
    intro st tcid tag i n k hk
    simp only [trackMsgs]
    rw [ih _ tcid tag (i + 1) n k hk, trackMsg_store_other st tcid _ m k hk]

theorem trackMsg_nodup (st : DemuxState) (tcid msgId : String) (m : Msg)
    (h : ∀ k, ((st.store k).map Msg.id).Nodup) :
    ∀ k, (((trackMsg st tcid msgId m).store k).map Msg.id).Nodup := by
  intro k
  by_cases h1 : (st.store tcid).any (fun m0 => m0.id == some msgId) = true
  · have : (trackMsg st tcid msgId m).store k = st.store k := by
      simp [trackMsg, h1]
    rw [this]; exact h k
  · by_cases hk : k = tcid
    · subst hk
      have heq : (trackMsg st k msgId m).store k =
          st.store k ++ [{ m with id := some msgId }] := by
        simp [trackMsg, h1]
      rw [heq, List.map_append]
      refine List.Nodup.append (h k) (List.nodup_singleton _) ?_
      intro a ha hb
      simp only [List.map_cons, List.map_nil, List.mem_singleton] at hb
      subst hb
      rw [List.mem_map] at ha
      obtain ⟨m0, hm0, hid⟩ := ha
      rw [List.any_eq_true] at h1
      exact h1 ⟨m0, hm0, by rw [beq_iff_eq]; exact hid⟩
    · rw [trackMsg_store_other st tcid msgId m k hk]; exact h k

theorem trackMsgs_nodup (ms : List Msg) :
    ∀ (st : DemuxState) (tcid tag : String) (i n : Nat),
      (∀ k, ((st.store k).map Msg.id).Nodup) →
      ∀ k, (((trackMsgs st tcid tag i n ms).store k).map Msg.id).Nodup := by
  induction ms with
  | nil => intro st tcid tag i n h k; exact h k
  | cons m rest ih =>
    intro st tcid tag i n h k
    simp only [trackMsgs]
    exact ih _ tcid tag (i + 1) n (trackMsg_nodup st tcid _ m h) k

/-- An id already present in a log stays present after one tracking step. -/
theorem trackMsg_presence (st : DemuxState) (tcid msgId : String) (m : Msg)
    (k : String) (i : String)
    (h : (st.store k).any (fun m0 => m0.id == some i) = true) :
    ((trackMsg st tcid msgId m).store k).any (fun m0 => m0.id == some i) =
      true := by
  obtain ⟨t, ht⟩ := trackMsg_store_grow st tcid msgId m k
  rw [ht, List.any_append, h, Bool.true_or]

theorem trackMsgs_presence (ms : List Msg) :
    ∀ (st : DemuxState) (tcid tag : String) (i n : Nat) (k : String)
      (id0 : String),
      (st.store k).any (fun m0 => m0.id == some id0) = true →
      ((trackMsgs st tcid tag i n ms).store k).any
        (fun m0 => m0.id == some id0) = true := by
  intro st tcid tag i n k id0 h
  obtain ⟨t, ht⟩ := trackMsgs_store_grow ms st tcid tag i n k
  rw [ht, List.any_append, h, Bool.true_or]

/-- Tracking a message never changes how many entries of a log carry an id
that the target log already holds (the second and later arrivals are
dropped). -/
theorem trackMsg_countP (st : DemuxState) (tcid msgId : String) (m : Msg)
    (i : String)
    (hmem : (st.store tcid).any (fun m0 => m0.id == some i) = true)
    (k : String) :
    ((trackMsg st tcid msgId m).store k).countP (fun m0 => m0.id == some i) =
      (st.store k).countP (fun m0 => m0.id == some i) := by
  by_cases h1 : (st.store tcid).any (fun m0 => m0.id == some msgId) = true
  · have : (trackMsg st tcid msgId m).store k = st.store k := by
      simp [trackMsg, h1]
    rw [this]
  · by_cases hk : k = tcid
    · subst hk
      have heq : (trackMsg st k msgId m).store k =
          st.store k ++ [{ m with id := some msgId }] := by
        simp [trackMsg, h1]
      rw [heq, List.countP_append]
      have hne : msgId ≠ i := by
        intro he
        subst he
        exact h1 hmem
      have : ([{ m with id := some msgId }].countP
          fun m0 => m0.id == some i) = 0 := by
        simp [List.countP_cons, hne]
      rw [this, Nat.add_zero]
    · rw [trackMsg_store_other st tcid msgId m k hk]

theorem trackMsgs_countP (ms : List Msg) :
    ∀ (st : DemuxState) (tcid tag : String) (i n : Nat) (id0 : String),
      (st.store tcid).any (fun m0 => m0.id == some id0) = true →
      ∀ k, ((trackMsgs st tcid tag i n ms).store k).countP
          (fun m0 => m0.id == some id0) =
        (st.store k).countP (fun m0 => m0.id == some id0) := by
  induction ms with
  | nil => intro st tcid tag i n id0 _ k; rfl
  | cons m rest ih =>
    intro st tcid tag i n id0 hmem k
    simp only [trackMsgs]
    rw [ih _ tcid tag (i + 1) n id0
      (trackMsg_presence st tcid _ m tcid id0 hmem) k]
    exact trackMsg_countP st tcid _ m id0 hmem k

/-- Tracking a message with a present (non-empty) id leaves that id present
in the target log. -/
theorem trackMsg_adds (st : DemuxState) (tcid msgId : String) (m : Msg) :
    ((trackMsg st tcid msgId m).store tcid).any
      (fun m0 => m0.id == some msgId) = true := by
  by_cases h1 : (st.store tcid).any (fun m0 => m0.id == some msgId) = true
  · have : (trackMsg st tcid msgId m).store tcid = st.store tcid := by
      simp [trackMsg, h1]
    rw [this]; exact h1
  · have heq : (trackMsg st tcid msgId m).store tcid =
        st.store tcid ++ [{ m with id := some msgId }] := by
      simp [trackMsg, h1]
    rw [heq, List.any_append]
    simp

theorem trackMsgs_adds (ms : List Msg) :
    ∀ (st : DemuxState) (tcid tag : String) (i n : Nat) (m : Msg)
      (id0 : String), m ∈ ms → m.id = some id0 → id0 ≠ "" →
      ((trackMsgs st tcid tag i n ms).store tcid).any
        (fun m0 => m0.id == some id0) = true := by
  induction ms with
  | nil => intro st tcid tag i n m id0 h; cases h
  | cons m1 rest ih =>
    intro st tcid tag i n m id0 hm hid hne
    rcases List.mem_cons.mp hm with he | hm2
    · subst he
      simp only [trackMsgs]
      refine trackMsgs_presence rest _ tcid tag (i + 1) n tcid id0 ?_
      have hres : resolveMsgId m tag tcid i n = id0 := by
        unfold resolveMsgId
        rw [hid]
        simp only [Option.getD_some]
        rw [if_neg hne]
      rw [← hres]
      exact trackMsg_adds st tcid _ m
    · simp only [trackMsgs]
      exact ih _ tcid tag (i + 1) n m id0 hm2 hid hne

/-! ## Event-level invariant lemmas -/

theorem trackMsgsOpt_store_grow (o : Option (List Msg)) (st : DemuxState)
    (tcid tag : String) (now : Nat) (k : String) :
    ∃ t, (trackMsgsOpt st tcid tag now o).store k = st.store k ++ t := by
  cases o with
  | none => exact ⟨[], (List.append_nil _).symm⟩
  | some ms => exact trackMsgs_store_grow ms st tcid tag 0 now k

theorem trackMsgsOpt_store_other (o : Option (List Msg)) (st : DemuxState)
    (tcid tag : String) (now : Nat) (k : String) (hk : k ≠ tcid) :
    (trackMsgsOpt st tcid tag now o).store k = st.store k := by
  cases o with
  | none => rfl
  | some ms => exact trackMsgs_store_other ms st tcid tag 0 now k hk

theorem trackMsgsOpt_nodup (o : Option (List Msg)) (st : DemuxState)
    (tcid tag : String) (now : Nat)
    (h : ∀ k, ((st.store k).map Msg.id).Nodup) :
    ∀ k, (((trackMsgsOpt st tcid tag now o).store k).map Msg.id).Nodup := by
  cases o with
  | none => exact h
  | some ms => exact trackMsgs_nodup ms st tcid tag 0 now h

theorem trackMsgsOpt_countP (o : Option (List Msg)) (st : DemuxState)
    (tcid tag : String) (now : Nat) (id0 : String)
    (hmem : (st.store tcid).any (fun m0 => m0.id == some id0) = true)
    (k : String) :
    ((trackMsgsOpt st tcid tag now o).store k).countP
        (fun m0 => m0.id == some id0) =
      (st.store k).countP (fun m0 => m0.id == some id0) := by
  cases o with
  | none => rfl
  | some ms => exact trackMsgs_countP ms st tcid tag 0 now id0 hmem k

theorem trackMsgsOpt_presence (o : Option (List Msg)) (st : DemuxState)
    (tcid tag : String) (now : Nat) (k : String) (id0 : String)
    (h : (st.store k).any (fun m0 => m0.id == some id0) = true) :
    ((trackMsgsOpt st tcid tag now o).store k).any
      (fun m0 => m0.id == some id0) = true := by
  obtain ⟨t, ht⟩ := trackMsgsOpt_store_grow o st tcid tag now k
  rw [ht, List.any_append, h, Bool.true_or]

theorem trackMsgsOpt_adds (o : Option (List Msg)) (st : DemuxState)
    (tcid tag : String) (now : Nat) (ms : List Msg) (m : Msg) (id0 : String)
    (ho : o = some ms) (hm : m ∈ ms) (hid : m.id = some id0)
    (hne : id0 ≠ "") :
    ((trackMsgsOpt st tcid tag now o).store tcid).any
      (fun m0 => m0.id == some id0) = true := by
  subst ho
  exact trackMsgs_adds ms st tcid tag 0 now m id0 hm hid hne

theorem trackSelfTool_store_grow (st : DemuxState) (tcid : String)
    (now : Nat) (m : Msg) (k : String) :
    ∃ t, (trackSelfTool st tcid now m).store k = st.store k ++ t := by
  unfold trackSelfTool
  by_cases h : (m.type == some "tool") = true
  · rw [if_pos h]
    exact trackMsg_store_grow st tcid _ m k
  · rw [if_neg h]
    exact ⟨[], (List.append_nil _).symm⟩

theorem trackSelfTool_store_other (st : DemuxState) (tcid : String)
    (now : Nat) (m : Msg) (k : String) (hk : k ≠ tcid) :
    (trackSelfTool st tcid now m).store k = st.store k := by
  unfold trackSelfTool
  by_cases h : (m.type == some "tool") = true
  · rw [if_pos h]
    exact trackMsg_store_other st tcid _ m k hk
  · rw [if_neg h]

theorem trackSelfTool_nodup (st : DemuxState) (tcid : String) (now : Nat)
    (m : Msg) (h : ∀ k, ((st.store k).map Msg.id).Nodup) :
    ∀ k, (((trackSelfTool st tcid now m).store k).map Msg.id).Nodup := by
  unfold trackSelfTool
  by_cases hc : (m.type == some "tool") = true
  · rw [if_pos hc]
    exact trackMsg_nodup st tcid _ m h
  · rw [if_neg hc]
    exact h

theorem trackSelfTool_countP (st : DemuxState) (tcid : String) (now : Nat)
    (m : Msg) (id0 : String)
    (hmem : (st.store tcid).any (fun m0 => m0.id == some id0) = true)
    (k : String) :
    ((trackSelfTool st tcid now m).store k).countP
        (fun m0 => m0.id == some id0) =
      (st.store k).countP (fun m0 => m0.id == some id0) := by
  unfold trackSelfTool
  by_cases hc : (m.type == some "tool") = true
  · rw [if_pos hc]
    exact trackMsg_countP st tcid _ m id0 hmem k
  · rw [if_neg hc]

theorem onUpdateEvent_eq (st : DemuxState) (n0 : String) (ns : List String)
    (d : UpdateData) (now : Nat) :
    onUpdateEvent st (n0 :: ns) d now =
      trackMsgsOpt st (extractToolCallId n0) "" now
        (d.modelMessages <|> d.messages) := rfl

theorem onDebugEvent_eq (st : DemuxState) (n0 : String) (ns : List String)
    (pl : DebugPayload) (now : Nat) :
    onDebugEvent st (n0 :: ns) (some pl) now =
      trackSelfTool
        (trackMsgsOpt
          (trackMsgsOpt st (extractToolCallId n0) "debug-" now pl.messages)
          (extractToolCallId n0) "debug-" now pl.inputMessages)
        (extractToolCallId n0) now pl.selfMsg := rfl

theorem trackSelfTool_presence (st : DemuxState) (tcid : String) (now : Nat)
    (m : Msg) (k : String) (id0 : String)
    (h : (st.store k).any (fun m0 => m0.id == some id0) = true) :
    ((trackSelfTool st tcid now m).store k).any
      (fun m0 => m0.id == some id0) = true := by
  obtain ⟨t, ht⟩ := trackSelfTool_store_grow st tcid now m k
  rw [ht, List.any_append, h, Bool.true_or]

/-! ## C4: per-log dedup by id and monotone growth of the store -/

/-- C4: for any update or debug event the per-thread store only grows (every
log is extended by appending, never shrunk or replaced); processing any
event preserves duplicate-freedom of each log's ids; an id already present
in the target log is never added again (its count in every log is
unchanged — the second arrival is dropped, so the log keeps that id exactly
once with the first arrival's position); and a carried message with a
non-empty id is present in the target log afterwards. -/
theorem demux_dedup_and_growth (st : DemuxState) (n0 : String)
    (ns : List String) (d : UpdateData) (p : Option DebugPayload)
    (now now2 : Nat) (i : String) :
    (∀ k, ∃ t, (onUpdateEvent st (n0 :: ns) d now).store k =
      st.store k ++ t) ∧
    (∀ k, ∃ t, (onDebugEvent st (n0 :: ns) p now2).store k =
      st.store k ++ t) ∧
    ((∀ k, ((st.store k).map Msg.id).Nodup) →
      (∀ k, (((onUpdateEvent st (n0 :: ns) d now).store k).map
        Msg.id).Nodup) ∧
      (∀ k, (((onDebugEvent st (n0 :: ns) p now2).store k).map
        Msg.id).Nodup)) ∧
    ((st.store (extractToolCallId n0)).any
        (fun m0 => m0.id == some i) = true →
      ∀ k,
        ((onUpdateEvent st (n0 :: ns) d now).store k).countP
            (fun m0 => m0.id == some i) =
          (st.store k).countP (fun m0 => m0.id == some i) ∧
        ((onDebugEvent st (n0 :: ns) p now2).store k).countP
            (fun m0 => m0.id == some i) =
          (st.store k).countP (fun m0 => m0.id == some i)) ∧
    (∀ msgs, (d.modelMessages <|> d.messages) = some msgs →
      ∀ m ∈ msgs, m.id = some i → i ≠ "" →
      ((onUpdateEvent st (n0 :: ns) d now).store
        (extractToolCallId n0)).any (fun m0 => m0.id == some i) = true) ∧
    (∀ pl msgs, p = some pl → pl.messages = some msgs →
      ∀ m ∈ msgs, m.id = some i → i ≠ "" →
      ((onDebugEvent st (n0 :: ns) p now2).store
        (extractToolCallId n0)).any (fun m0 => m0.id == some i) = true) := by
  refine ⟨?_, ?_, ?_, ?_, ?_, ?_⟩
  · intro k
    rw [onUpdateEvent_eq]
    exact trackMsgsOpt_store_grow _ st _ "" now k
  · intro k
    cases p with
    | none => exact ⟨[], (List.append_nil _).symm⟩
    | some pl =>
      rw [onDebugEvent_eq]
      obtain ⟨t1, h1⟩ := trackMsgsOpt_store_grow pl.messages st
        (extractToolCallId n0) "debug-" now2 k
      obtain ⟨t2, h2⟩ := trackMsgsOpt_store_grow pl.inputMessages _
        (extractToolCallId n0) "debug-" now2 k
      obtain ⟨t3, h3⟩ := trackSelfTool_store_grow _ (extractToolCallId n0)
        now2 pl.selfMsg k
      refine ⟨t1 ++ (t2 ++ t3), ?_⟩
      rw [h3, h2, h1, List.append_assoc, List.append_assoc]
  · intro h
    constructor
    · rw [onUpdateEvent_eq]
      exact trackMsgsOpt_nodup _ st _ "" now h
    · cases p with
      | none => exact h
      | some pl =>
        rw [onDebugEvent_eq]
        exact trackSelfTool_nodup _ _ now2 pl.selfMsg
          (trackMsgsOpt_nodup _ _ _ "debug-" now2
            (trackMsgsOpt_nodup _ st _ "debug-" now2 h))
  · intro hmem k
    constructor
    · rw [onUpdateEvent_eq]
      exact trackMsgsOpt_countP _ st _ "" now i hmem k
    · cases p with
      | none => rfl
      | some pl =>
        rw [onDebugEvent_eq]
        have hmem1 := trackMsgsOpt_presence pl.messages st
          (extractToolCallId n0) "debug-" now2 (extractToolCallId n0) i hmem
        have hmem2 := trackMsgsOpt_presence pl.inputMessages _
          (extractToolCallId n0) "debug-" now2 (extractToolCallId n0) i hmem1
        rw [trackSelfTool_countP _ _ now2 pl.selfMsg i hmem2 k,
          trackMsgsOpt_countP _ _ _ "debug-" now2 i hmem1 k,
          trackMsgsOpt_countP _ st _ "debug-" now2 i hmem k]
  · intro msgs hms m hm hid hne
    rw [onUpdateEvent_eq]
    exact trackMsgsOpt_adds _ st _ "" now msgs m i hms hm hid hne
  · intro pl msgs hp hms m hm hid hne
    subst hp
    rw [onDebugEvent_eq]
    refine trackSelfTool_presence _ _ now2 pl.selfMsg _ i ?_
    refine trackMsgsOpt_presence pl.inputMessages _ _ "debug-" now2 _ i ?_
    exact trackMsgsOpt_adds pl.messages st _ "debug-" now2 msgs m i hms hm
      hid hne

def exMsg1 : Msg := { id := some "m1", type := some "ai" }

def exDemuxStore : String → List Msg :=
  fun k => if k = "abc" then [exMsg1] else []

def exDemux : DemuxState := { seenIds := ["m1"], store := exDemuxStore }

def exUpdate : UpdateData := { messages := some [exMsg1] }

theorem demux_dedup_and_growth_witness :
    ∀ k,
      ((onUpdateEvent exDemux ["tools:abc"] exUpdate 5).store k).countP
          (fun m0 => m0.id == some "m1") =
        (exDemux.store k).countP (fun m0 => m0.id == some "m1") ∧
      ((onDebugEvent exDemux ["tools:abc"] none 6).store k).countP
          (fun m0 => m0.id == some "m1") =
        (exDemux.store k).countP (fun m0 => m0.id == some "m1") :=
  (demux_dedup_and_growth exDemux "tools:abc" [] exUpdate none 5 6
    "m1").2.2.2.1 (by decide)

/-! ## C5: key selection and per-key isolation -/

/-- C5: an event with an empty namespace leaves the whole state untouched;
an event with namespace head `n0` modifies no log other than the one keyed
by `extractToolCallId n0` (so messages arriving under `tools:abc` and
`tools:xyz` land in the two distinct logs `abc` and `xyz` and never mix);
the key is the `<id>` capture when the head matches `tools:<id>` (non-empty
id without line terminators), and the head verbatim otherwise. -/
theorem demux_key_selection (st : DemuxState) (d : UpdateData)
    (p : Option DebugPayload) (now : Nat) (n0 : String) (ns : List String)
    (k : String) (cs : List Char) (s : String) :
    onUpdateEvent st [] d now = st ∧
    onDebugEvent st [] p now = st ∧
    (k ≠ extractToolCallId n0 →
      (onUpdateEvent st (n0 :: ns) d now).store k = st.store k ∧
      (onDebugEvent st (n0 :: ns) p now).store k = st.store k) ∧
    (cs ≠ [] → cs.all isRegexDotChar = true →
      extractToolCallId (String.mk (toolsTag ++ cs)) = String.mk cs) ∧
    (s.data.take 6 ≠ toolsTag → extractToolCallId s = s) := by
  refine ⟨rfl, rfl, ?_, ?_, ?_⟩
  · intro hk
    constructor
    · rw [onUpdateEvent_eq]
      exact trackMsgsOpt_store_other _ st _ "" now k hk
    · cases p with
      | none => rfl
      | some pl =>
        rw [onDebugEvent_eq]
        rw [trackSelfTool_store_other _ _ now pl.selfMsg k hk,
          trackMsgsOpt_store_other _ _ _ "debug-" now k hk,
          trackMsgsOpt_store_other _ st _ "debug-" now k hk]
  · intro hne hall
    unfold extractToolCallId
    have hdata : (String.mk (toolsTag ++ cs)).data = toolsTag ++ cs := rfl
    rw [hdata]
    rw [show (6 : Nat) = toolsTag.length from rfl, List.take_left,
      List.drop_left]
    rw [if_pos ⟨rfl, hne, hall⟩]
  · intro hns
    unfold extractToolCallId
    rw [if_neg]
    rintro ⟨h1, -, -⟩
    exact hns h1

theorem demux_key_selection_witness :
    ((onUpdateEvent exDemux ["tools:abc"] exUpdate 5).store "xyz" =
        exDemux.store "xyz" ∧
      (onDebugEvent exDemux ["tools:abc"] none 5).store "xyz" =
        exDemux.store "xyz") ∧
    extractToolCallId (String.mk (toolsTag ++ ['x', 'y', 'z'])) =
      String.mk ['x', 'y', 'z'] ∧
    extractToolCallId "agent7" = "agent7" :=
  ⟨(demux_key_selection exDemux exUpdate none 5 "tools:abc" [] "xyz"
      ['x', 'y', 'z'] "agent7").2.2.1 (by decide),
   (demux_key_selection exDemux exUpdate none 5 "tools:abc" [] "xyz"
      ['x', 'y', 'z'] "agent7").2.2.2.1 (by decide) (by decide),
   (demux_key_selection exDemux exUpdate none 5 "tools:abc" [] "xyz"
      ['x', 'y', 'z'] "agent7").2.2.2.2 (by decide)⟩

/-! ## ToolCall reconstruction (ChatMessage.tsx, subagent activity block) -/

inductive TCStatus
  | pending
  | completed
  | error
  | interrupted
deriving DecidableEq, Repr

structure ToolCall where
  id : String
  name : String
  args : List (String × String)
  status : TCStatus
  result : Option String := none
deriving DecidableEq, Repr

/-- One entry of the `toolResults` map: messages with `msg.type === "tool"`
and a truthy `msg.tool_call_id` are indexed by that id, in order. -/
def toolResultPairs (msgs : List Msg) : List (String × Msg) :=
  msgs.filterMap fun m =>
    if m.type == some "tool" && m.tool_call_id.getD "" != "" then
      some (m.tool_call_id.getD "", m)
    else none

/-- `toolResults.get(id)` where `toolResults` was filled with `Map.set`:
the last write to a key wins. -/
def lookupToolResult (msgs : List Msg) (k : String) : Option Msg :=
  ((toolResultPairs msgs).reverse.find? fun pr => pr.1 == k).map Prod.snd

/-- `typeof item === "string" ? item : item.text || JSON.stringify(item)`:
a string block passes through; an object block yields its `text` field
unless that is missing or empty, in which case its dump. -/
def renderContentItem : ContentItem → String
  | .str s => s
  | .obj t d =>
    match t with
    | some s => if s = "" then d else s
    | none => d

/-- Result-content normalization of the matched tool message (lines
217-230 of ChatMessage.tsx): a string passes through; an array of blocks is
flattened to newline-joined text; any other truthy value is rendered as its
formatted dump; a falsy content (or no matching message) yields no
result. -/
def extractResultContent : Option Msg → Option String
  | none => none
  | some tr =>
    match tr.content with
    | some (.str s) => some s
    | some (.arr items) =>
      some (String.intercalate "\n" (items.map renderContentItem))
    | some (.other d) => some d
    | none => none

/-- The record pushed for one embedded tool-call request: `name` defaults to
`"unknown"` when missing or empty, `args` to `{}`, `status` to completed
exactly when the lookup found a tool message, `result` to the normalized
content. -/
def buildToolCall (msgs : List Msg) (tc : ToolCallRequest) : ToolCall :=
  let toolResult := lookupToolResult msgs tc.id
  { id := tc.id
    name := if tc.name.getD "" = "" then "unknown" else tc.name.getD ""
    args := tc.args.getD []
    status := if toolResult.isSome then .completed else .pending
    result := extractResultContent toolResult }

/-- The `allSubagentMsgs.forEach` loop guarded by `msg.type === "ai" &&
msg.tool_calls && Array.isArray(msg.tool_calls)`, with the pool `R` used for
the result lookup separated from the traversed list so the traversal can be
reasoned about by induction; the source uses the same flat pool for both. -/
def reconstructFrom (R : List Msg) (l : List Msg) : List ToolCall :=
  l.flatMap fun m =>
    if m.type == some "ai" && m.tool_calls.isSome then
      (m.tool_calls.getD []).map (buildToolCall R)
    else []

/-- The subagent ToolCall reconstruction of `ChatMessage.tsx` over the flat
pool of accumulated subagent messages. -/
def reconstructToolCalls (msgs : List Msg) : List ToolCall :=
  reconstructFrom msgs msgs

/-- The tool-call requests embedded in ai-role messages, in order — the
spec-side description of what the reconstruction should enumerate. -/
def embeddedRequests (msgs : List Msg) : List ToolCallRequest :=
  msgs.flatMap fun m =>
    if m.type == some "ai" then m.tool_calls.getD [] else []

theorem lookupToolResult_isSome_iff (msgs : List Msg) (k : String) :
    (lookupToolResult msgs k).isSome = true ↔
      ∃ m ∈ msgs, m.type = some "tool" ∧ m.tool_call_id = some k ∧
        k ≠ "" := by
  unfold lookupToolResult
  rw [Option.isSome_map', List.find?_isSome]
  constructor
  · rintro ⟨pr, hpr, hk⟩
    rw [List.mem_reverse] at hpr
    unfold toolResultPairs at hpr
    rw [List.mem_filterMap] at hpr
    obtain ⟨m, hm, hfm⟩ := hpr
    by_cases hg : (m.type == some "tool" && m.tool_call_id.getD "" != "") =
        true
    · rw [if_pos hg] at hfm
      rw [Bool.and_eq_true, beq_iff_eq] at hg
      obtain ⟨htype, htid⟩ := hg
      obtain ⟨rfl⟩ := Option.some.injEq .. ▸ hfm
      rw [beq_iff_eq] at hk
      cases hoa : m.tool_call_id with
      | none =>
        rw [hoa] at htid
        simp at htid
      | some t =>
        refine ⟨m, hm, htype, ?_, ?_⟩
        · rw [hoa]
          rw [hoa] at hk
          simp only [Option.getD_some] at hk
          rw [hk]
        · rw [← hk, hoa]
          simp only [Option.getD_some]
          rw [hoa] at htid
          simpa using htid
    · rw [if_neg hg] at hfm
      cases hfm
  · rintro ⟨m, hm, htype, htid, hne⟩
    refine ⟨(k, m), ?_, by rw [beq_iff_eq]⟩
    rw [List.mem_reverse]
    unfold toolResultPairs
    rw [List.mem_filterMap]
    refine ⟨m, hm, ?_⟩
    rw [if_pos]
    · rw [htid]
      rfl
    · rw [Bool.and_eq_true, beq_iff_eq]
      refine ⟨htype, ?_⟩
      rw [htid]
      simpa using hne

theorem reconstructFrom_map_id (R l : List Msg) :
    (reconstructFrom R l).map ToolCall.id =
      (l.flatMap fun m =>
        if m.type == some "ai" then m.tool_calls.getD [] else []).map
        ToolCallRequest.id := by
  unfold reconstructFrom
  rw [List.map_flatMap, List.map_flatMap]
  congr 1
  funext m
  cases htc : m.tool_calls with
  | none => simp [htc]
  | some tcs =>
    by_cases hai : (m.type == some "ai") = true
    · simp only [htc, hai, Option.isSome_some, Bool.and_true, if_pos,
        Option.getD_some, List.map_map]
      rfl
    · simp [htc, hai]

theorem mem_reconstructFrom (R l : List Msg) (t : ToolCall) :
    t ∈ reconstructFrom R l ↔
      ∃ m ∈ l, m.type = some "ai" ∧ ∃ tcs, m.tool_calls = some tcs ∧
        ∃ tc ∈ tcs, t = buildToolCall R tc := by
  unfold reconstructFrom
  rw [List.mem_flatMap]
  constructor
  · rintro ⟨m, hm, ht⟩
    by_cases hg : (m.type == some "ai" && m.tool_calls.isSome) = true
    · rw [if_pos hg] at ht
      rw [Bool.and_eq_true, beq_iff_eq] at hg
      obtain ⟨hai, hsome⟩ := hg
      cases htc : m.tool_calls with
      | none => rw [htc] at hsome; cases hsome
      | some tcs =>
        rw [htc] at ht
        simp only [Option.getD_some] at ht
        rw [List.mem_map] at ht
        obtain ⟨tc, htcmem, hb⟩ := ht
        exact ⟨m, hm, hai, tcs, htc, tc, htcmem, hb.symm⟩
    · rw [if_neg hg] at ht
      cases ht
  · rintro ⟨m, hm, hai, tcs, htc, tc, htcmem, ht⟩
    refine ⟨m, hm, ?_⟩
    rw [if_pos, htc]
    · simp only [Option.getD_some]
      rw [List.mem_map]
      exact ⟨tc, htcmem, ht.symm⟩
    · rw [Bool.and_eq_true, beq_iff_eq]
      exact ⟨hai, by rw [htc]; rfl⟩

/-! ## C6: reconstruction pairing and result normalization -/

def exAi : Msg :=
  { id := some "a1", type := some "ai",
    tool_calls := some [{ id := "tc1", name := some "search" }] }

def exToolRes : Msg :=
  { id := some "t1", type := some "tool", tool_call_id := some "tc1",
    content := some (.arr [.obj (some "") "blockdump"]) }

def exAi2 : Msg :=
  { id := some "a2", type := some "ai",
    tool_calls := some [{ id := "tc2", name := some "fetch" }] }

def exToolNull : Msg :=
  { id := some "t2", type := some "tool", tool_call_id := some "tc2" }

/-- C6 counterexample: a content block carrying an *empty* `text` field is
rendered as its dump, not as its text field (`item.text ||
JSON.stringify(item)` treats the empty string as missing), and a matching
tool message whose content is null/absent yields a record with status
completed but *no* result. -/
theorem reconstruct_empty_text_block_dumped :
    (reconstructToolCalls [exAi, exToolRes]).map ToolCall.result =
        [some "blockdump"] ∧
      (reconstructToolCalls [exAi, exToolRes]).map ToolCall.status =
        [TCStatus.completed] ∧
      (reconstructToolCalls [exAi2, exToolNull]).map
          (fun t => (t.status, t.result)) = [(TCStatus.completed, none)] := by
  refine ⟨by decide, by decide, by decide⟩

/-- C6 amended: the reconstructed records enumerate, in order, exactly the
tool-call requests embedded in ai-role messages; each record's status is
completed exactly when some tool-role message with a truthy `tool_call_id`
equal to the request id exists (and pending otherwise, with no result); the
result comes from the last such matching message's content — a string
passes through unchanged, an array of blocks becomes newline-joined text
(each block's text field when non-empty, otherwise a dump of the block),
any other truthy structured value is rendered as its formatted dump, and a
null or absent content leaves the result absent even though the status is
completed.  Unmatched tool-role messages produce no record. -/
theorem reconstructToolCalls_spec (msgs : List Msg) :
    (reconstructToolCalls msgs).map ToolCall.id =
      (embeddedRequests msgs).map ToolCallRequest.id ∧
    ∀ t ∈ reconstructToolCalls msgs,
      (t.status = TCStatus.completed ∨ t.status = TCStatus.pending) ∧
      (t.status = TCStatus.completed ↔
        ∃ m ∈ msgs, m.type = some "tool" ∧ m.tool_call_id = some t.id ∧
          t.id ≠ "") ∧
      (t.status = TCStatus.pending → t.result = none) ∧
      (∀ m, lookupToolResult msgs t.id = some m →
        (∀ s, m.content = some (MsgContent.str s) → t.result = some s) ∧
        (∀ items, m.content = some (MsgContent.arr items) →
          t.result = some (String.intercalate "\n"
            (items.map renderContentItem))) ∧
        (∀ d2, m.content = some (MsgContent.other d2) → t.result = some d2) ∧
        (m.content = none → t.result = none)) := by
  constructor
  · exact reconstructFrom_map_id msgs msgs
  · intro t ht
    obtain ⟨m, hm, hai, tcs, htcs, tc, htcmem, rfl⟩ :=
      (mem_reconstructFrom msgs msgs t).mp ht
    have hid : (buildToolCall msgs tc).id = tc.id := rfl
    have hstat : (buildToolCall msgs tc).status =
        (if (lookupToolResult msgs tc.id).isSome then TCStatus.completed
         else TCStatus.pending) := rfl
    have hres : (buildToolCall msgs tc).result =
        extractResultContent (lookupToolResult msgs tc.id) := rfl
    by_cases hs : (lookupToolResult msgs tc.id).isSome = true
    · have hstat2 : (buildToolCall msgs tc).status = TCStatus.completed := by
        rw [hstat, if_pos hs]
      refine ⟨Or.inl hstat2, ?_, ?_, ?_⟩
      · rw [hstat2, hid]
        simp only [true_iff]
        exact (lookupToolResult_isSome_iff msgs tc.id).mp hs
      · rw [hstat2]
        intro hcontra
        exact absurd hcontra (by decide)
      · intro m2 hm2
        rw [hid] at hm2
        refine ⟨?_, ?_, ?_, ?_⟩
        · intro s hsc
          rw [hres, hm2]
          simp only [extractResultContent, hsc]
        · intro items hic
          rw [hres, hm2]
          simp only [extractResultContent, hic]
        · intro d2 hd2
          rw [hres, hm2]
          simp only [extractResultContent, hd2]
        · intro hn
          rw [hres, hm2]
          simp only [extractResultContent, hn]
    · have hnone : lookupToolResult msgs tc.id = none :=
        Option.not_isSome_iff_eq_none.mp hs
      have hstat2 : (buildToolCall msgs tc).status = TCStatus.pending := by
        rw [hstat, hnone]
        rfl
      refine ⟨Or.inr hstat2, ?_, ?_, ?_⟩
      · rw [hstat2, hid]
        constructor
        · intro hcontra
          exact absurd hcontra (by decide)
        · intro hex
          exact absurd ((lookupToolResult_isSome_iff msgs tc.id).mpr hex) hs
      · intro _
        rw [hres, hnone]
        rfl
      · intro m2 hm2
        rw [hid, hnone] at hm2
        cases hm2

def exRecord : ToolCall :=
  { id := "tc1", name := "search", args := [], status := .completed,
    result := some "blockdump" }

theorem reconstructToolCalls_spec_witness :
    exRecord.status = TCStatus.completed ∨
      exRecord.status = TCStatus.pending :=
  ((reconstructToolCalls_spec [exAi, exToolRes]).2 exRecord (by decide)).1

/-! ## Session Controller (useChat hook)

Each operation is modelled as the ordered list of externally observable
effects it performs before returning: the `stream.submit` call (with the
options the source passes) and the synchronous `onHistoryRevalidate?.()`
call.  The asynchronous `onFinish`/`onError`/`onCreated` stream callbacks
are collaborator-side and are not part of an operation's own effects. -/

structure Checkpoint where
  token : String
deriving DecidableEq, Repr

inductive HaltPoint
  | beforeTools
  | afterTools
deriving DecidableEq, Repr

inductive SCCommand
  | resume
  | gotoEnd
deriving DecidableEq, Repr

structure SubmitCall where
  messages : Option (List Msg) := none
  optimistic : Bool := false
  checkpoint : Option Checkpoint := none
  interrupt : Option HaltPoint := none
  streamSubgraphs : Bool := false
  recursionLimit : Option Nat := none
  command : Option SCCommand := none
deriving DecidableEq, Repr

inductive Effect
  | submit (s : SubmitCall)
  | historyRevalidate
deriving DecidableEq, Repr

/-- `sendMessage` of `useChat`: optimistic submit of the new human message
with `recursion_limit: 100` and `streamSubgraphs: true`, then the
synchronous `onHistoryRevalidate?.()` call. -/
def sendMessage (newMessage : Msg) : List Effect :=
  [Effect.submit
    { messages := some [newMessage], optimistic := true,
      streamSubgraphs := true, recursionLimit := some 100 },
   Effect.historyRevalidate]

/-- `runSingleStep` of `useChat`: with a checkpoint, resume from it with no
new input, halting after tools when re-running a subagent step and before
tools otherwise; without a checkpoint, submit the messages halting before
tools.  No `onHistoryRevalidate?.()` call is made. -/
def runSingleStep (messages : List Msg) (checkpoint : Option Checkpoint)
    (isRerunningSubagent : Bool) (optimisticMessages : Option (List Msg)) :
    List Effect :=
  match checkpoint with
  | some cp =>
    [Effect.submit
      { optimistic := optimisticMessages.isSome, checkpoint := some cp,
        streamSubgraphs := true,
        interrupt := some (if isRerunningSubagent then HaltPoint.afterTools
          else HaltPoint.beforeTools) }]
  | none =>
    [Effect.submit
      { messages := some messages, streamSubgraphs := true,
        interrupt := some HaltPoint.beforeTools }]

/-- `continueStream` of `useChat`: resume the paused run with
`recursion_limit: 100`, halting after tools exactly when `hasTaskToolCall`,
then the synchronous `onHistoryRevalidate?.()` call. -/
def continueStream (hasTaskToolCall : Bool) : List Effect :=
  [Effect.submit
    { streamSubgraphs := true, recursionLimit := some 100,
      interrupt := some (if hasTaskToolCall then HaltPoint.afterTools
        else HaltPoint.beforeTools) },
   Effect.historyRevalidate]

/-- `markCurrentThreadAsResolved` of `useChat`: the forced terminal
command, then the synchronous `onHistoryRevalidate?.()` call. -/
def markCurrentThreadAsResolved : List Effect :=
  [Effect.submit { command := some SCCommand.gotoEnd },
   Effect.historyRevalidate]

/-- `resumeInterrupt` of `useChat`: the resume command with subgraph events
enabled, then the synchronous `onHistoryRevalidate?.()` call. -/
def resumeInterrupt : List Effect :=
  [Effect.submit { streamSubgraphs := true, command := some SCCommand.resume },
   Effect.historyRevalidate]

/-- The halt points requested by the submits of an effect list. -/
def submittedInterrupts (effs : List Effect) : List (Option HaltPoint) :=
  effs.filterMap fun e =>
    match e with
    | .submit s => some s.interrupt
    | _ => none

/-! ## C7: synchronous thread-list refresh -/

/-- C7 counterexample: `runSingleStep` performs a backend state transition
(it submits) but, unlike the other operations, never requests a thread-list
refresh before returning — neither with nor without a checkpoint. -/
theorem runSingleStep_no_revalidate :
    Effect.historyRevalidate ∉ runSingleStep [] none false none ∧
      Effect.historyRevalidate ∉
        runSingleStep [] (some { token := "cp" }) true none ∧
      (runSingleStep [] none false none).length = 1 := by
  refine ⟨by decide, by decide, rfl⟩

/-- C7 amended: `sendMessage`, `continueStream`, `resumeInterrupt` and
`markCurrentThreadAsResolved` each request a thread-list refresh
synchronously (immediately after their submit) before returning, but
`runSingleStep` — also a state-transition operation — never does; its
refresh happens only through the stream's asynchronous
finish/error/created callbacks. -/
theorem revalidate_spec (newMessage : Msg) (messages : List Msg)
    (checkpoint : Option Checkpoint) (isRerunningSubagent : Bool)
    (optimisticMessages : Option (List Msg)) (hasTaskToolCall : Bool) :
    Effect.historyRevalidate ∈ sendMessage newMessage ∧
      Effect.historyRevalidate ∈ continueStream hasTaskToolCall ∧
      Effect.historyRevalidate ∈ resumeInterrupt ∧
      Effect.historyRevalidate ∈ markCurrentThreadAsResolved ∧
      Effect.historyRevalidate ∉
        runSingleStep messages checkpoint isRerunningSubagent
          optimisticMessages := by
  refine ⟨?_, ?_, ?_, ?_, ?_⟩
  · exact List.mem_cons_of_mem _ (List.mem_singleton.mpr rfl)
  · exact List.mem_cons_of_mem _ (List.mem_singleton.mpr rfl)
  · exact List.mem_cons_of_mem _ (List.mem_singleton.mpr rfl)
  · exact List.mem_cons_of_mem _ (List.mem_singleton.mpr rfl)
  · cases checkpoint with
    | none =>
      intro hmem
      simp [runSingleStep] at hmem
    | some cp =>
      intro hmem
      simp [runSingleStep] at hmem

/-! ## C8: halt-point selection -/

/-- C8: `runSingleStep` submits with interrupt-before-tools both without a
checkpoint (for either flag value) and with a checkpoint when
`isRerunningSubagent` is false; with a checkpoint and the flag set it
submits with interrupt-after-tools; `continueStream` submits with
interrupt-after-tools exactly when `hasTaskToolCall` is true and
interrupt-before-tools otherwise. -/
theorem halt_point_spec (messages : List Msg) (cp : Checkpoint)
    (optimisticMessages : Option (List Msg)) (b ht : Bool) :
    submittedInterrupts (runSingleStep messages none b optimisticMessages) =
        [some HaltPoint.beforeTools] ∧
      submittedInterrupts
          (runSingleStep messages (some cp) false optimisticMessages) =
        [some HaltPoint.beforeTools] ∧
      submittedInterrupts
          (runSingleStep messages (some cp) true optimisticMessages) =
        [some HaltPoint.afterTools] ∧
      submittedInterrupts (continueStream ht) =
        [some (if ht then HaltPoint.afterTools else HaltPoint.beforeTools)] ∧
      submittedInterrupts (continueStream false) =
        [some HaltPoint.beforeTools] ∧
      submittedInterrupts (continueStream true) =
        [some HaltPoint.afterTools] := by
  cases b <;> refine ⟨rfl, rfl, rfl, rfl, rfl, rfl⟩

theorem canProceed_spec_witness :
    canProceed [exSkipped] = true ↔
      ∀ q ∈ [exSkipped], ¬(q.status = QuestionStatus.pending ∧
        q.priority = QuestionPriority.blocking) :=
  canProceed_spec [exSkipped]

theorem revalidate_spec_witness :
    Effect.historyRevalidate ∈ sendMessage {} ∧
      Effect.historyRevalidate ∈ continueStream true ∧
      Effect.historyRevalidate ∈ resumeInterrupt ∧
      Effect.historyRevalidate ∈ markCurrentThreadAsResolved ∧
      Effect.historyRevalidate ∉ runSingleStep [] none false none :=
  revalidate_spec {} [] none false none true

theorem halt_point_spec_witness :
    submittedInterrupts (runSingleStep [] none false none) =
        [some HaltPoint.beforeTools] ∧
      submittedInterrupts
          (runSingleStep [] (some { token := "cp" }) false none) =
        [some HaltPoint.beforeTools] ∧
      submittedInterrupts
          (runSingleStep [] (some { token := "cp" }) true none) =
        [some HaltPoint.afterTools] ∧
      submittedInterrupts (continueStream false) =
        [some (if false then HaltPoint.afterTools else
          HaltPoint.beforeTools)] ∧
      submittedInterrupts (continueStream false) =
        [some HaltPoint.beforeTools] ∧
      submittedInterrupts (continueStream true) =
        [some HaltPoint.afterTools] :=
  halt_point_spec [] { token := "cp" } none false false
